import Mathlib

/-
Verification development for the jsonlog datastore (src/jsonlog/datastore.py).

The Python module has two layers:
  * an Atomic File Layer (`atomic_rename`, `DataStoreFS.open_new_file`) that
    stages content in a scratch directory (`__temp`) and publishes it with a
    link-then-unlink step that refuses to overwrite an existing destination;
  * a Versioned Record Store (`DataStore.get` / `DataStore.put` / `all_ids`)
    that reads the highest-numbered `<type_tag>-<n>.json` version file of an id
    and writes version n+1, with dates encoded as tagged JSON objects.

This file gives a shallow embedding of both layers.  Pure helpers are
translated directly; the filesystem is an explicit state (an association list
of record directories, each holding (basename, content) pairs); exceptions are
`Except` values.  Generic JSON encode/decode operates at the level of parsed
trees (records are association lists of field values); `dateutil.parser.parse`
is an external library and is modelled from the spec (see `parse_date`).
-/

namespace Jsonlog

/-! ## Characters and digit strings -/

/-- Value of a decimal digit character, `none` for non-digits
(models the character class `[0-9]` and Python `int()` of a digit). -/
def charToDigit (c : Char) : Option Nat :=
  if 48 ≤ c.toNat ∧ c.toNat ≤ 57 then some (c.toNat - 48) else none

/-- The decimal digit character for a value `< 10` (used to model Python's
`%d`-style rendering of numbers). -/
def digitChar : Nat → Char
  | 0 => '0'
  | 1 => '1'
  | 2 => '2'
  | 3 => '3'
  | 4 => '4'
  | 5 => '5'
  | 6 => '6'
  | 7 => '7'
  | 8 => '8'
  | _ => '9'

/-- Numeric value of a digit character, with `0` as a junk default. -/
def chVal (c : Char) : Nat := c.toNat - 48

/-- Big-endian value of a list of base-10 digits. -/
def ofBE (l : List Nat) : Nat := l.foldl (fun a d => 10 * a + d) 0

/-- Big-endian base-10 digits of `n` (empty for `n = 0`), driven by fuel so
that the definition is structurally recursive and kernel-computable. -/
def natToDigitsAux : Nat → Nat → List Nat
  | 0, _ => []
  | fuel + 1, n => if n = 0 then [] else natToDigitsAux fuel (n / 10) ++ [n % 10]

/-- Big-endian base-10 digits of `n` (empty for `n = 0`). -/
def natDigits (n : Nat) : List Nat := natToDigitsAux n n

/-- Decimal rendering of a natural number, as Python's `'%d' % n` produces it
(`0` renders as `"0"`, no leading zeros otherwise). -/
def natChars (n : Nat) : List Char :=
  if n = 0 then ['0'] else (natDigits n).map digitChar

/-- Decimal rendering of an integer, as Python's `'%d' % i` produces it. -/
def intChars (i : Int) : List Char :=
  if i < 0 then '-' :: natChars i.natAbs else natChars i.toNat

/-- Base-10 digits of `n` zero-padded on the left to width `k`
(models `strftime` fixed-width numeric fields such as `%Y`, `%m`). -/
def padDigitsNat (k n : Nat) : List Nat :=
  List.replicate (k - (natDigits n).length) 0 ++ natDigits n

/-- Character form of `padDigitsNat`. -/
def padChars (k n : Nat) : List Char := (padDigitsNat k n).map digitChar

/-- Numeric value of a string of digit characters (Python `int(s)` on the
regex group). -/
def digitsValOf (ds : List Char) : Nat := ds.foldl (fun a c => 10 * a + chVal c) 0

/-- Read exactly `k` decimal digits from the front of `l`, accumulating into
`acc`; `none` if a non-digit or the end is hit first. -/
def readFixedAux : Nat → Nat → List Char → Option (Nat × List Char)
  | 0, acc, l => some (acc, l)
  | _ + 1, _, [] => none
  | k + 1, acc, c :: l =>
    match charToDigit c with
    | some d => readFixedAux k (10 * acc + d) l
    | none => none

/-- Read a fixed-width `k`-digit decimal number. -/
def readFixed (k : Nat) (l : List Char) : Option (Nat × List Char) :=
  readFixedAux k 0 l

/-- Is `needle` a contiguous substring of `haystack`? -/
def containsSub (needle : List Char) : List Char → Bool
  | [] => needle.isEmpty
  | c :: t => needle.isPrefixOf (c :: t) || containsSub needle t

/-- Does the text `hay` mention `needle` somewhere? -/
def strMentions (needle hay : String) : Bool := containsSub needle.data hay.data

/-! ## Timestamps: `DataStore.DATE_STRING = "%Y%m%dT%H%M%S%z"` -/

/-- A Python `datetime` value at the granularity this store works with:
calendar fields plus microseconds and an optional UTC offset in minutes
(`none` models a naive datetime, whose `%z` renders as the empty string). -/
structure PyDateTime where
  year : Nat
  month : Nat
  day : Nat
  hour : Nat
  minute : Nat
  second : Nat
  micro : Nat
  tz : Option Int
deriving DecidableEq

/-- The `%z` part of `DATE_STRING`: empty for a naive datetime, else a sign
followed by two-digit hours and minutes of the absolute offset. -/
def tzChars : Option Int → List Char
  | none => []
  | some off =>
    (if off < 0 then '-' else '+') :: (padChars 2 (off.natAbs / 60) ++ padChars 2 (off.natAbs % 60))

/-- `DataStore.serialized_date` (datastore.py line 117-118):
`date.strftime("%Y%m%dT%H%M%S%z")` as a character list.  Sub-second precision
(`micro`) is dropped by the format. -/
def serializedDateL (d : PyDateTime) : List Char :=
  padChars 4 d.year ++ padChars 2 d.month ++ padChars 2 d.day
    ++ 'T' :: (padChars 2 d.hour ++ padChars 2 d.minute ++ padChars 2 d.second)
    ++ tzChars d.tz

/-- `DataStore.serialized_date`, string form. -/
def serialized_date (d : PyDateTime) : String := String.mk (serializedDateL d)

/-- Modelled from the spec: `DataStore.parse_date` delegates to
`dateutil.parser.parse`, an external collaborator ("a date-parsing facility
able to parse the iso8601-like string back into a timestamp value").  This
models it on the `YYYYMMDDThhmmss<offset>` strings the store emits: fixed-width
numeric fields, a literal `T`, an optional `+HHMM`/`-HHMM` offset, and
rejection of impossible calendar fields. -/
def parseDateL (l : List Char) : Option PyDateTime :=
  match readFixed 4 l with
  | none => none
  | some (y, l1) =>
    match readFixed 2 l1 with
    | none => none
    | some (mo, l2) =>
      match readFixed 2 l2 with
      | none => none
      | some (dy, l3) =>
        match l3 with
        | 'T' :: l4 =>
          match readFixed 2 l4 with
          | none => none
          | some (h, l5) =>
            match readFixed 2 l5 with
            | none => none
            | some (mi, l6) =>
              match readFixed 2 l6 with
              | none => none
              | some (s, l7) =>
                if 1 ≤ y ∧ 1 ≤ mo ∧ mo ≤ 12 ∧ 1 ≤ dy ∧ dy ≤ 31 ∧ h ≤ 23 ∧ mi ≤ 59 ∧ s ≤ 59 then
                  match l7 with
                  | [] => some ⟨y, mo, dy, h, mi, s, 0, none⟩
                  | c :: r =>
                    match readFixed 2 r with
                    | none => none
                    | some (hh, r1) =>
                      match readFixed 2 r1 with
                      | none => none
                      | some (mm, r2) =>
                        match r2 with
                        | [] =>
                          if c = '+' then some ⟨y, mo, dy, h, mi, s, 0, some ((hh * 60 + mm : Nat) : Int)⟩
                          else if c = '-' then some ⟨y, mo, dy, h, mi, s, 0, some (-((hh * 60 + mm : Nat) : Int))⟩
                          else none
                        | _ :: _ => none
                else none
        | _ => none

/-- `DataStore.parse_date` on strings. -/
def parse_date (s : String) : Option PyDateTime := parseDateL s.data

/-- Timestamps the serialization format can represent faithfully: in-range
calendar fields and an offset below 24 hours (what `dateutil` accepts). -/
def WFDate (d : PyDateTime) : Prop :=
  1 ≤ d.year ∧ d.year ≤ 9999 ∧ 1 ≤ d.month ∧ d.month ≤ 12 ∧ 1 ≤ d.day ∧ d.day ≤ 31 ∧
  d.hour ≤ 23 ∧ d.minute ≤ 59 ∧ d.second ≤ 59 ∧
  (d.tz.all (fun off => off.natAbs ≤ 1439)) = true

instance (d : PyDateTime) : Decidable (WFDate d) := by
  unfold WFDate; infer_instance

/-- Truncation to second granularity (what a serialize/parse round trip keeps). -/
def truncSec (d : PyDateTime) : PyDateTime := { d with micro := 0 }

/-! ## JSON-like values and records -/

/-- Scalar JSON values (the store's records never need floats). -/
inductive JLeaf
  | jnull
  | jbool (b : Bool)
  | jint (n : Int)
  | jstr (s : String)
deriving DecidableEq

/-- A field value of an in-memory record: a scalar, a Python `datetime`
(pre-encoding), or a nested object of scalars. -/
inductive MemVal
  | leaf (l : JLeaf)
  | date (d : PyDateTime)
  | obj (fields : List (String × JLeaf))
deriving DecidableEq

/-- A field value of an on-disk (wire) record: after `json.dump` with the
custom encoder, datetimes have become tagged objects (objects of scalars). -/
inductive WireVal
  | leaf (l : JLeaf)
  | obj (fields : List (String × JLeaf))
deriving DecidableEq

/-- An in-memory record: a JSON object, field order as in a Python dict. -/
abbrev Record := List (String × MemVal)

/-! ## Association-list primitives (Python dict operations used by the code) -/

/-- First value bound to `key` (Python `d[key]` / `d.get(key)`). -/
def lookupField {α : Type} : List (String × α) → String → Option α
  | [], _ => none
  | (k, v) :: t, key => if k = key then some v else lookupField t key

/-- Python `key in d`. -/
def hasField {α : Type} (l : List (String × α)) (key : String) : Bool :=
  (lookupField l key).isSome

/-- Python `d[key] = v`: update in place if present, else append. -/
def setField {α : Type} : List (String × α) → String → α → List (String × α)
  | [], key, v => [(key, v)]
  | (k, w) :: t, key, v =>
    if k = key then (k, v) :: t else (k, w) :: setField t key v

/-- An on-disk record: the JSON object written by `json.dump`. -/
abbrev WireRecord := List (String × WireVal)

/-! ## JSON encoding and decoding hooks (datastore.py lines 148-165) -/

/-- The `default` method of `DataStore.json_encoder` (lines 150-158): a
`datetime` becomes `{'__datetime__': True, 'iso8601': serialized_date(obj)}`;
every other value is serialized by the standard encoder unchanged. -/
def encodeVal : MemVal → WireVal
  | .leaf l => .leaf l
  | .obj fs => .obj fs
  | .date d => .obj [("__datetime__", .jbool true), ("iso8601", .jstr (serialized_date d))]

/-- `json.dump(item, ..., cls=json_encoder())` at tree level. -/
def encodeRecord (r : Record) : WireRecord :=
  r.map (fun p => (p.1, encodeVal p.2))

/-- `DataStore.json_decode` (lines 162-165) applied to an inner object during
`json.load(..., object_hook=...)`: any dict containing the key `__datetime__`
is replaced by `parse_date(dct['iso8601'])`.  A missing `iso8601` key raises
`KeyError` and a non-string value makes `dateutil` raise; both surface as a
failed parse (`none`), which `get` wraps into its catch-all. -/
def json_decode_obj (fs : List (String × JLeaf)) : Option MemVal :=
  if hasField fs "__datetime__" then
    match lookupField fs "iso8601" with
    | some (.jstr s) => (parse_date s).map MemVal.date
    | some _ => none
    | none => none
  else some (.obj fs)

/-- Decoding of one wire field value through the `object_hook`. -/
def decodeVal : WireVal → Option MemVal
  | .leaf l => some (.leaf l)
  | .obj fs => json_decode_obj fs

/-- Decode all fields of a wire record, failing if any field fails. -/
def decodeFields : List (String × WireVal) → Option (List (String × MemVal))
  | [] => some []
  | (k, w) :: t =>
    match decodeVal w with
    | none => none
    | some v =>
      match decodeFields t with
      | none => none
      | some t' => some ((k, v) :: t')

/-- `json.load(inf, object_hook=json_decode)` on a record file, as consumed by
`get`.  The hook also runs on the outermost dict: if the record itself carries
a `__datetime__` key the whole content is replaced by a datetime (or the parse
raises), and the subsequent `content['version'] = ...` assignment in `get`
fails either way — so `get`'s try/except treats that case as a failure too. -/
def decodeTop (w : WireRecord) : Option Record :=
  if w.any (fun p => p.1 == "__datetime__") then none else decodeFields w

/-! ## The version-filename pattern (datastore.py line 128) -/

/-- `re.compile('^[a-zA-Z]+-([0-9]+).json$')` applied with `.match`, returning
`int(group(1))`.  Translated faithfully, including two quirks of the actual
regex: the dot before `json` is unescaped, so it matches ANY character except a
newline; and Python's `$` also matches just before a trailing newline.  Greedy
matching with backtracking means the digit group is the maximal digit run when
some character can still fill the dot, and the maximal run minus its last
digit when the run abuts `json` directly. -/
def itemTail (ds r3 : List Char) : Option Nat :=
  match ds with
  | [] => none
  | _ :: _ =>
    match r3 with
    | ['j', 's', 'o', 'n'] =>
      if 2 ≤ ds.length then some (digitsValOf ds.dropLast) else none
    | ['j', 's', 'o', 'n', '\n'] =>
      if 2 ≤ ds.length then some (digitsValOf ds.dropLast) else none
    | [c, 'j', 's', 'o', 'n'] =>
      if c = '\n' then none else some (digitsValOf ds)
    | [c, 'j', 's', 'o', 'n', '\n'] =>
      if c = '\n' then none else some (digitsValOf ds)
    | _ => none

/-- After the mandatory dash: the digit group and the `.json$` tail. -/
def itemAfterDash (r2 : List Char) : Option Nat :=
  itemTail (r2.takeWhile Char.isDigit) (r2.dropWhile Char.isDigit)

/-- Split on the leading letter group `[a-zA-Z]+` and the dash. -/
def itemSplit (letters rest : List Char) : Option Nat :=
  match letters, rest with
  | [], _ => none
  | _ :: _, '-' :: r2 => itemAfterDash r2
  | _ :: _, _ => none

def itemMatchL (l : List Char) : Option Nat :=
  itemSplit (l.takeWhile Char.isAlpha) (l.dropWhile Char.isAlpha)

/-- The filename match of `DataStore.get.item_log` on a basename. -/
def item_match (s : String) : Option Nat := itemMatchL s.data

/-- Modelled from the spec: the literal `<letters>-<digits>.json` version
filename pattern the specification describes (dot taken literally).  Kept
separate from `item_match` so the two can be compared. -/
def spec_version_pattern (s : String) : Option Nat :=
  match s.data.takeWhile Char.isAlpha, s.data.dropWhile Char.isAlpha with
  | [], _ => none
  | _ :: _, '-' :: r2 =>
    match r2.takeWhile Char.isDigit, r2.dropWhile Char.isDigit with
    | [], _ => none
    | ds@(_ :: _), ['.', 'j', 's', 'o', 'n'] => some (digitsValOf ds)
    | _, _ => none
  | _, _ => none

/-- `'%s-%d.json' % (type_tag, new_version_number)` (line 170). -/
def mkFname (tag : String) (n : Int) : String :=
  String.mk (tag.data ++ '-' :: (intChars n ++ ['.', 'j', 's', 'o', 'n']))

/-! ## Exceptions -/

/-- The store-level exception values.  `DataStoreException.__init__` (lines
19-32) builds its message from a `msg` argument and an optional formatted
`exc_info`; `ConcurrentModificationException` is a subclass constructed by
`put` with `sys.exc_info()` passed as the `msg` positional argument (line 185).
`rawError` stands for an exception that escapes without being wrapped. -/
inductive DSErr
  | dataStore (msg : String) (excInfo : Option String)
  | concurrentModification (msg : String) (excInfo : Option String)
  | rawError (msg : String)
deriving DecidableEq

/-- Python's rendering of the `sys.exc_info()` tuple that `put` passes as the
message of `ConcurrentModificationException`: it shows the exception class and
value (here the `FileAlreadyExistsException` wrapping the underlying cause
text) and a traceback object — and nothing else. -/
def strExcInfo (cause : String) : String :=
  "(<class FileAlreadyExistsException>, FileAlreadyExistsException(" ++ cause
    ++ "), <traceback object>)"

/-- The full exception message per `DataStoreException.__init__`:
`'%s, %s' % (msg, format_exc_info())`, where a `None` exc_info formats as `''`. -/
def fullMessage : DSErr → String
  | .dataStore m i => m ++ ", " ++ i.getD ""
  | .concurrentModification m i => m ++ ", " ++ i.getD ""
  | .rawError m => m

/-- Is this error a `ConcurrentModificationException` as `put` raises it
(no separate exc_info — line 185 passes it as the message)? -/
def isCME : DSErr → Bool
  | .concurrentModification _ none => true
  | _ => false

/-- Is this an exception that escaped without any wrapping? -/
def isRaw : DSErr → Bool
  | .rawError _ => true
  | _ => false

/-- Is this a `DataStoreException` whose message names the id, as `get`
constructs it (`'for id %s' % id` with the cause attached, line 146)? -/
def errNamesId (e : DSErr) (id : String) : Bool :=
  match e with
  | .dataStore m (some _) => m == "for id " ++ id
  | _ => false

/-- Success test for `Except` results. -/
def exceptIsOk {ε α : Type} : Except ε α → Bool
  | .ok _ => true
  | .error _ => false

instance {ε α : Type} [DecidableEq ε] [DecidableEq α] : DecidableEq (Except ε α) := by
  intro a b
  cases a <;> cases b
  case error.error x y =>
    exact match decEq x y with
      | isTrue h => isTrue (by rw [h])
      | isFalse h => isFalse (by intro hh; cases hh; exact h rfl)
  case ok.ok x y =>
    exact match decEq x y with
      | isTrue h => isTrue (by rw [h])
      | isFalse h => isFalse (by intro hh; cases hh; exact h rfl)
  case error.ok x y => exact isFalse (by intro hh; cases hh)
  case ok.error x y => exact isFalse (by intro hh; cases hh)

/-! ## Atomic File Layer (datastore.py lines 38-54 and 83-96) -/

/-- `os.name` possibilities distinguished by `atomic_rename`. -/
inductive OsName
  | posix
  | nt
  | other
deriving DecidableEq

/-- Outcome of `atomic_rename`'s try block as seen by its callers. -/
inductive RenameResult
  | success
  | fileAlreadyExists (cause : String)
  | notImplemented
deriving DecidableEq

/-- The underlying OS publish primitive (`os.link` + `os.unlink` on posix,
`os.rename` on nt): refuses to overwrite an existing destination, and may
independently fail with an unrelated I/O error (`ioErr`), e.g. a permission or
disk error, in which case no destination file exists. -/
def link_step (destExists : Bool) (ioErr : Option String) : Except String Unit :=
  if destExists then .error "File exists" else
    match ioErr with
    | some m => .error m
    | none => .ok ()

/-- `atomic_rename(src, dst)` (lines 38-54).  The result pairs the raised
outcome with whether the temp source file remains on disk afterwards: the
`finally` block (lines 51-54) removes a leftover source on every path, so the
second component is always `false`.  `NotImplementedError` is re-raised as-is
(line 47-48); every other exception from the try block is wrapped into
`FileAlreadyExistsException` (lines 49-50). -/
def atomic_rename (osname : OsName) (destExists : Bool) (ioErr : Option String) :
    RenameResult × Bool :=
  match osname with
  | .other => (.notImplemented, false)
  | _ =>
    match link_step destExists ioErr with
    | .ok _ => (.success, false)
    | .error m => (.fileAlreadyExists m, false)

/-- State of the filesystem seen by the Atomic File Layer: the names present
in the scratch area `__temp` and the published destination paths. -/
structure FsState where
  temp : List String
  dest : List String
deriving DecidableEq

/-- Result of one `DataStoreFS.open_new_file` use. -/
inductive OpenResult
  | published
  | alreadyExists (cause : String)
  | bodyError
  | notImplemented
deriving DecidableEq

/-- `DataStoreFS.open_new_file` (lines 83-96): `mkstemp` allocates `tmpName`
in the scratch area; the caller's body fills it (`bodyFails` says whether the
body raised).  On a body exception, `exc_info` is set, the `finally` block
skips `atomic_rename`, and the function re-raises — nothing removes the temp
file.  Otherwise `atomic_rename` publishes to `dstName` (refusing to overwrite
— `destExists` is read from the state; `ioErr` models an unrelated OS failure
of the link step), and its own `finally` removes the temp source on every one
of those paths. -/
def open_new_file (st : FsState) (tmpName dstName : String) (bodyFails : Bool)
    (ioErr : Option String) : FsState × OpenResult :=
  let st1 : FsState := { st with temp := tmpName :: st.temp }
  if bodyFails then (st1, .bodyError)
  else
    match atomic_rename .posix (st1.dest.contains dstName) ioErr with
    | (.success, _) =>
      ({ temp := st1.temp.erase tmpName, dest := dstName :: st1.dest }, .published)
    | (.fileAlreadyExists m, _) =>
      ({ st1 with temp := st1.temp.erase tmpName }, .alreadyExists m)
    | (.notImplemented, _) =>
      ({ st1 with temp := st1.temp.erase tmpName }, .notImplemented)

/-! ## Versioned Record Store (datastore.py lines 99-185) -/

/-- The record directories under the store root: id to the list of
(basename, parsed file content) pairs, in `os.listdir` order.  (`get` applies
`os.path.basename` to the paths `listfiles` yields, so basenames are the
relevant names.)  The scratch directory `__temp` always exists alongside and
is tracked by `FsState` above. -/
structure Store where
  dirs : List (String × List (String × WireRecord))
deriving DecidableEq

/-- The files of an id's directory (empty if the directory does not exist). -/
def filesOf (st : Store) (id : String) : List (String × WireRecord) :=
  (lookupField st.dirs id).getD []

/-- Does a file already exist at `id/fname`?  (decides whether the publish
step of `put`'s `open_new_file` raises `FileAlreadyExistsException`). -/
def destExists (st : Store) (id fname : String) : Bool :=
  match lookupField st.dirs id with
  | some files => files.any (fun f => f.1 == fname)
  | none => false

/-- Publish a new version file.  A first write creates the record directory
implicitly (the spec: record directories are "created implicitly by the first
successful write"). -/
def addFile (st : Store) (id fname : String) (content : WireRecord) : Store :=
  match lookupField st.dirs id with
  | some files => ⟨setField st.dirs id (files ++ [(fname, content)])⟩
  | none => ⟨st.dirs ++ [(id, [(fname, content)])]⟩

/-- The generator `item_log` inside `get` (lines 127-135): files of the id's
directory whose basename matches the version regex, paired with the parsed
version number. -/
def matchesOf (files : List (String × WireRecord)) :
    List ((String × WireRecord) × Nat) :=
  files.filterMap (fun f => (item_match f.1).map (fun v => (f, v)))

/-- `max(item_log(), key=lambda tuple: tuple[1])` (line 138): Python's `max`
keeps the current value unless a strictly greater key appears, so the first
maximal element wins. -/
def pickMax {α : Type} (m : α × Nat) (ms : List (α × Nat)) : α × Nat :=
  ms.foldl (fun acc x => if acc.2 < x.2 then x else acc) m

/-- Fixed cause texts for the failures `get` wraps (the formatted tracebacks
of the underlying exceptions; their exact text plays no role). -/
def fmtOSError : String := "OSError from os.listdir"

/-- Cause text for `max()` on an empty sequence. -/
def fmtEmptyMax : String := "ValueError: max() arg is an empty sequence"

/-- Cause text for a failed `json.load` / version-field assignment. -/
def fmtParseError : String := "exception while loading the version file"

/-- `DataStore.get` (lines 126-146).  Every failure inside the try block — a
missing directory, no regex match (so `max` raises `ValueError`), an unreadable
or undecodable file — is wrapped into `DataStoreException('for id %s' % id,
sys.exc_info())`.  On success the `version` field is overwritten with the
number parsed from the chosen filename. -/
def get (st : Store) (id : String) : Except DSErr Record :=
  match lookupField st.dirs id with
  | none => .error (.dataStore ("for id " ++ id) (some fmtOSError))
  | some files =>
    match matchesOf files with
    | [] => .error (.dataStore ("for id " ++ id) (some fmtEmptyMax))
    | m :: ms =>
      let latest := pickMax m ms
      match decodeTop latest.1.2 with
      | none => .error (.dataStore ("for id " ++ id) (some fmtParseError))
      | some content => .ok (setField content "version" (.leaf (.jint (latest.2 : Int))))

/-- Python `item['version'] + 1` tolerates ints and bools (bool is an int
subclass); anything else raises. -/
def pyIntOfVal : MemVal → Option Int
  | .leaf (.jint v) => some v
  | .leaf (.jbool b) => some (if b then 1 else 0)
  | _ => none

/-- The in-place mutations the body of `put`'s with-block applies to the
caller's dict (lines 176-180): `version` is set to the new version number,
then `creation_date` is set to `now` if absent, else `updating_date` is. -/
def put_record_update (item : Record) (nvn : Int) (now : PyDateTime) : Record :=
  let item1 := setField item "version" (.leaf (.jint nvn))
  if hasField item1 "creation_date" then setField item1 "updating_date" (.date now)
  else setField item1 "creation_date" (.date now)

/-- `DataStore.put` (lines 168-185).  Besides the source arguments, the model
takes `oscause` (the text of the OS error the publish step would wrap when the
destination exists) and `fsErr` (an unrelated failure of `mkstemp`/`open`
before the body runs — `put` has no handler for it, so it escapes raw).  The
result carries the returned value or exception, the final state of the
caller's `item` dict (Python mutates it in place), and the new store.  The
only exception `put` catches is `FileAlreadyExistsException`, which it turns
into `ConcurrentModificationException(sys.exc_info())` (lines 184-185). -/
def put (st : Store) (oscause : String) (fsErr : Option String)
    (type_tag id : String) (item : Record) (now : PyDateTime) :
    Except DSErr Int × Record × Store :=
  match lookupField item "version" with
  | none => (.error (.rawError "KeyError: version"), item, st)
  | some w =>
    match pyIntOfVal w with
    | none => (.error (.rawError "TypeError: unsupported operand types"), item, st)
    | some v =>
      let nvn : Int := v + 1
      let fname : String := mkFname type_tag nvn
      match fsErr with
      | some m => (.error (.rawError m), item, st)
      | none =>
        let item2 := put_record_update item nvn now
        let content := encodeRecord item2
        if destExists st id fname then
          (.error (.concurrentModification (strExcInfo oscause) none), item2, st)
        else
          (.ok nvn, item2, addFile st id fname content)

/-- `os.listdir` of the store root: the scratch directory `__temp` (created by
`DataStoreFS.__init__`) together with the record directories. -/
def listdirs (st : Store) : List String := "__temp" :: st.dirs.map Prod.fst

/-- The loop of `all_ids` over directory basenames (lines 110-115): `__temp`
is filtered out; every other directory is probed with `self.get(basename)` —
with no exception handler, so a failing `get` aborts the iteration with its
exception — and yielded if the probe returns. -/
def allIdsAux (st : Store) : List String → Except DSErr (List String)
  | [] => .ok []
  | d :: rest =>
    if d = "__temp" then allIdsAux st rest
    else
      match get st d with
      | .error e => .error e
      | .ok _ =>
        match allIdsAux st rest with
        | .error e => .error e
        | .ok l => .ok (d :: l)

/-- `DataStore.all_ids` (lines 109-115), with the generator materialized. -/
def all_ids (st : Store) : Except DSErr (List String) :=
  allIdsAux st (listdirs st)

/-- The Unix epoch as a naive datetime — a convenient concrete clock value. -/
def epoch : PyDateTime := ⟨1970, 1, 1, 0, 0, 0, 0, none⟩

/-! ## Association-list lemmas -/

theorem lookupField_setField_same {α : Type} (l : List (String × α)) (k : String) (v : α) :
    lookupField (setField l k v) k = some v := by
  induction l with
  | nil => simp [setField, lookupField]
  | cons p t ih =>
    obtain ⟨k', w⟩ := p
    by_cases h : k' = k
    · simp [setField, lookupField, h]
    · simp [setField, lookupField, h, ih]

theorem lookupField_setField_ne {α : Type} (l : List (String × α)) (k k' : String) (v : α)
    (h : k' ≠ k) : lookupField (setField l k v) k' = lookupField l k' := by
  induction l with
  | nil => simp [setField, lookupField, Ne.symm h]
  | cons p t ih =>
    obtain ⟨k0, w⟩ := p
    by_cases h0 : k0 = k
    · subst h0
      simp [setField, lookupField, Ne.symm h]
    · simp [setField, if_neg h0, lookupField, ih]

theorem hasField_setField_ne {α : Type} (l : List (String × α)) (k k' : String) (v : α)
    (h : k' ≠ k) : hasField (setField l k v) k' = hasField l k' := by
  simp [hasField, lookupField_setField_ne l k k' v h]

theorem lookupField_append_of_none {α : Type} (l1 l2 : List (String × α)) (k : String)
    (h : lookupField l1 k = none) :
    lookupField (l1 ++ l2) k = lookupField l2 k := by
  induction l1 with
  | nil => simp
  | cons p t ih =>
    obtain ⟨k0, w⟩ := p
    by_cases h0 : k0 = k
    · simp [lookupField, h0] at h
    · simp only [lookupField, if_neg h0] at h
      simpa [lookupField, if_neg h0] using ih h

/-! ## Digit-string lemmas -/

theorem charToDigit_digitChar (d : Nat) (h : d < 10) :
    charToDigit (digitChar d) = some d := by
  interval_cases d <;> decide

theorem chVal_digitChar (d : Nat) (h : d < 10) : chVal (digitChar d) = d := by
  interval_cases d <;> decide

theorem isDigit_digitChar (d : Nat) (h : d < 10) : (digitChar d).isDigit = true := by
  interval_cases d <;> decide

theorem natToDigitsAux_lt10 : ∀ (fuel n d : Nat), d ∈ natToDigitsAux fuel n → d < 10 := by
  intro fuel
  induction fuel with
  | zero => intro n d h; simp [natToDigitsAux] at h
  | succ f ih =>
    intro n d h
    by_cases h0 : n = 0
    · simp [natToDigitsAux, h0] at h
    · simp only [natToDigitsAux, if_neg h0, List.mem_append, List.mem_singleton] at h
      rcases h with h | h
      · exact ih _ _ h
      · subst h; exact Nat.mod_lt _ (by omega)

theorem natDigits_lt10 (n d : Nat) (h : d ∈ natDigits n) : d < 10 :=
  natToDigitsAux_lt10 n n d h

theorem ofBE_natToDigitsAux : ∀ (fuel n : Nat), n ≤ fuel →
    (natToDigitsAux fuel n).foldl (fun a d => 10 * a + d) 0 = n := by
  intro fuel
  induction fuel with
  | zero => intro n h; interval_cases n; simp [natToDigitsAux]
  | succ f ih =>
    intro n h
    by_cases h0 : n = 0
    · simp [natToDigitsAux, h0]
    · have hdiv : n / 10 ≤ f := by
        have hlt : n / 10 < n := Nat.div_lt_self (Nat.pos_of_ne_zero h0) (by omega)
        omega
      simp only [natToDigitsAux, if_neg h0, List.foldl_append, ih _ hdiv, List.foldl_cons,
        List.foldl_nil]
      omega

theorem ofBE_natDigits (n : Nat) : ofBE (natDigits n) = n :=
  ofBE_natToDigitsAux n n (Nat.le_refl n)

theorem natToDigitsAux_length : ∀ (fuel n k : Nat), n ≤ fuel → n < 10 ^ k →
    (natToDigitsAux fuel n).length ≤ k := by
  intro fuel
  induction fuel with
  | zero => intro n k h hk; interval_cases n; simp [natToDigitsAux]
  | succ f ih =>
    intro n k h hk
    by_cases h0 : n = 0
    · simp [natToDigitsAux, h0]
    · have hkpos : k ≠ 0 := by
        intro hk0; subst hk0; simp at hk; omega
      obtain ⟨k', rfl⟩ : ∃ k', k = k' + 1 := ⟨k - 1, by omega⟩
      have hdiv : n / 10 ≤ f := by
        have hlt : n / 10 < n := Nat.div_lt_self (Nat.pos_of_ne_zero h0) (by omega)
        omega
      have hdivk : n / 10 < 10 ^ k' := by
        rw [Nat.div_lt_iff_lt_mul (by omega)]
        calc n < 10 ^ (k' + 1) := hk
        _ = 10 ^ k' * 10 := by ring
      simp only [natToDigitsAux, if_neg h0, List.length_append, List.length_singleton]
      have := ih _ k' hdiv hdivk
      omega

theorem natDigits_length (n k : Nat) (h : n < 10 ^ k) : (natDigits n).length ≤ k :=
  natToDigitsAux_length n n k (Nat.le_refl n) h

theorem natDigits_ne_nil (n : Nat) (h : n ≠ 0) : natDigits n ≠ [] := by
  intro hnil
  have := ofBE_natDigits n
  rw [hnil] at this
  simp [ofBE] at this
  omega

theorem natChars_ne_nil (n : Nat) : natChars n ≠ [] := by
  by_cases h : n = 0
  · simp [natChars, h]
  · simp only [natChars, if_neg h]
    intro hc
    exact natDigits_ne_nil n h (List.map_eq_nil_iff.mp hc)

theorem foldl_chVal_map_digitChar (L : List Nat) (hL : ∀ d ∈ L, d < 10) :
    ∀ a, (L.map digitChar).foldl (fun x c => 10 * x + chVal c) a =
      L.foldl (fun x d => 10 * x + d) a := by
  induction L with
  | nil => intro a; simp
  | cons d t ih =>
    intro a
    have hd : d < 10 := hL d (by simp)
    simp only [List.map_cons, List.foldl_cons, chVal_digitChar d hd]
    exact ih (fun x hx => hL x (by simp [hx])) _

theorem digitsValOf_natChars (n : Nat) : digitsValOf (natChars n) = n := by
  by_cases h : n = 0
  · subst h; decide
  · simp only [natChars, if_neg h, digitsValOf]
    rw [foldl_chVal_map_digitChar _ (fun d hd => natDigits_lt10 n d hd)]
    exact ofBE_natDigits n

theorem isDigit_mem_natChars (n : Nat) (c : Char) (h : c ∈ natChars n) :
    c.isDigit = true := by
  by_cases h0 : n = 0
  · simp [natChars, h0] at h
    subst h; decide
  · simp only [natChars, if_neg h0, List.mem_map] at h
    obtain ⟨d, hd, rfl⟩ := h
    exact isDigit_digitChar d (natDigits_lt10 n d hd)

/-! ## Fixed-width field lemmas for the timestamp format -/

theorem readFixedAux_map_digitChar (L : List Nat) (hL : ∀ d ∈ L, d < 10) :
    ∀ (acc : Nat) (rest : List Char),
      readFixedAux L.length acc (L.map digitChar ++ rest) =
        some (L.foldl (fun a d => 10 * a + d) acc, rest) := by
  induction L with
  | nil => intro acc rest; simp [readFixedAux]
  | cons d t ih =>
    intro acc rest
    have hd : d < 10 := hL d (by simp)
    simp only [List.map_cons, List.length_cons, List.cons_append, readFixedAux,
      charToDigit_digitChar d hd, List.foldl_cons]
    exact ih (fun x hx => hL x (by simp [hx])) _ _

theorem padDigitsNat_length (k n : Nat) (h : n < 10 ^ k) : (padDigitsNat k n).length = k := by
  have := natDigits_length n k h
  simp only [padDigitsNat, List.length_append, List.length_replicate]
  omega

theorem padDigitsNat_lt10 (k n d : Nat) (hd : d ∈ padDigitsNat k n) : d < 10 := by
  simp only [padDigitsNat, List.mem_append, List.mem_replicate] at hd
  rcases hd with ⟨_, rfl⟩ | hd
  · omega
  · exact natDigits_lt10 n d hd

theorem foldl_replicate_zero (j : Nat) :
    (List.replicate j 0).foldl (fun a d => 10 * a + d) 0 = 0 := by
  induction j with
  | zero => rfl
  | succ j ih =>
    simp only [List.replicate_succ, List.foldl_cons]
    simpa using ih

theorem foldl_padDigitsNat (n k : Nat) :
    (padDigitsNat k n).foldl (fun a d => 10 * a + d) 0 = n := by
  simp only [padDigitsNat, List.foldl_append, foldl_replicate_zero]
  exact ofBE_natDigits n

theorem readFixed_padChars (k n : Nat) (h : n < 10 ^ k) (rest : List Char) :
    readFixed k (padChars k n ++ rest) = some (n, rest) := by
  have hlen : (padDigitsNat k n).length = k := padDigitsNat_length k n h
  have hstep := readFixedAux_map_digitChar (padDigitsNat k n)
    (fun d hd => padDigitsNat_lt10 k n d hd) 0 rest
  rw [hlen, foldl_padDigitsNat n k] at hstep
  simpa [readFixed, padChars] using hstep

theorem readFixed_padChars_nil (k n : Nat) (h : n < 10 ^ k) :
    readFixed k (padChars k n) = some (n, []) := by
  simpa using readFixed_padChars k n h []

/-- Serializing a representable timestamp with `DATE_STRING` and parsing it
back yields the same timestamp truncated to second granularity. -/
theorem parse_serialized_date (d : PyDateTime) (h : WFDate d) :
    parseDateL (serializedDateL d) = some (truncSec d) := by
  obtain ⟨y, mo, dy, hr, mi, ss, mic, tz⟩ := d
  obtain ⟨h1, h2, h3, h4, h5, h6, h7, h8, h9, h10⟩ := h
  simp only at h1 h2 h3 h4 h5 h6 h7 h8 h9 h10
  have hy := readFixed_padChars 4 y (by omega)
  have hmo := readFixed_padChars 2 mo (by omega)
  have hdy := readFixed_padChars 2 dy (by omega)
  have hhr := readFixed_padChars 2 hr (by omega)
  have hmi := readFixed_padChars 2 mi (by omega)
  have hss := readFixed_padChars 2 ss (by omega)
  simp only [serializedDateL, truncSec, List.cons_append, List.append_assoc]
  cases tz with
  | none =>
    simp only [tzChars, List.append_nil]
    simp [parseDateL, hy, hmo, hdy, hhr, hmi, readFixed_padChars_nil 2 ss (by omega),
      h1, h2, h3, h4, h5, h6, h7, h8, h9]
  | some off =>
    simp only [Option.all_some, decide_eq_true_eq] at h10
    have hoh : off.natAbs / 60 < 10 ^ 2 := by omega
    have hom : off.natAbs % 60 < 10 ^ 2 := by omega
    rcases lt_or_ge off 0 with hneg | hpos
    · simp only [tzChars, if_pos hneg, List.cons_append]
      simp [parseDateL, hy, hmo, hdy, hhr, hmi, hss, h1, h2, h3, h4, h5, h6, h7, h8, h9,
        readFixed_padChars 2 _ hoh, readFixed_padChars_nil 2 _ hom]
      rw [abs_of_neg hneg]
      omega
    · simp only [tzChars, if_neg (by omega : ¬off < 0), List.cons_append]
      simp [parseDateL, hy, hmo, hdy, hhr, hmi, hss, h1, h2, h3, h4, h5, h6, h7, h8, h9,
        readFixed_padChars 2 _ hoh, readFixed_padChars_nil 2 _ hom]
      rw [abs_of_nonneg hpos]
      omega

/-! ## takeWhile / dropWhile over a clean split -/

theorem takeWhile_all_append {p : Char → Bool} (l1 : List Char) (c : Char) (l2 : List Char)
    (h1 : ∀ x ∈ l1, p x = true) (h2 : p c = false) :
    (l1 ++ c :: l2).takeWhile p = l1 := by
  induction l1 with
  | nil => simp [List.takeWhile_cons, h2]
  | cons a t ih =>
    have ha : p a = true := h1 a (by simp)
    simp [List.takeWhile_cons_of_pos ha, ih (fun x hx => h1 x (by simp [hx]))]

theorem dropWhile_all_append {p : Char → Bool} (l1 : List Char) (c : Char) (l2 : List Char)
    (h1 : ∀ x ∈ l1, p x = true) (h2 : p c = false) :
    (l1 ++ c :: l2).dropWhile p = c :: l2 := by
  induction l1 with
  | nil => simp [List.dropWhile_cons, h2]
  | cons a t ih =>
    have ha : p a = true := h1 a (by simp)
    simp [List.dropWhile_cons_of_pos ha, ih (fun x hx => h1 x (by simp [hx]))]

/-- The filename `put` builds for a purely alphabetic tag and version `n`
matches the version regex with group value `n`. -/
theorem itemMatchL_tag_digits (tag : List Char) (n : Nat)
    (hne : tag ≠ []) (hal : ∀ c ∈ tag, c.isAlpha = true) :
    itemMatchL (tag ++ '-' :: (natChars n ++ ['.', 'j', 's', 'o', 'n'])) = some n := by
  have hdash : ('-').isAlpha = false := by decide
  have hdot : ('.').isDigit = false := by decide
  have hdig : ∀ x ∈ natChars n, x.isDigit = true := fun x hx => isDigit_mem_natChars n x hx
  have htw : (tag ++ '-' :: (natChars n ++ ['.', 'j', 's', 'o', 'n'])).takeWhile Char.isAlpha
      = tag := takeWhile_all_append tag '-' _ hal hdash
  have hdw : (tag ++ '-' :: (natChars n ++ ['.', 'j', 's', 'o', 'n'])).dropWhile Char.isAlpha
      = '-' :: (natChars n ++ ['.', 'j', 's', 'o', 'n']) :=
    dropWhile_all_append tag '-' _ hal hdash
  have htw2 : (natChars n ++ ['.', 'j', 's', 'o', 'n']).takeWhile Char.isDigit = natChars n :=
    takeWhile_all_append (natChars n) '.' ['j', 's', 'o', 'n'] hdig hdot
  have hdw2 : (natChars n ++ ['.', 'j', 's', 'o', 'n']).dropWhile Char.isDigit
      = ['.', 'j', 's', 'o', 'n'] :=
    dropWhile_all_append (natChars n) '.' ['j', 's', 'o', 'n'] hdig hdot
  cases tag with
  | nil => exact absurd rfl hne
  | cons a t =>
    rcases hnc : natChars n with _ | ⟨c0, cs⟩
    · exact absurd hnc (natChars_ne_nil n)
    · rw [hnc] at htw hdw htw2 hdw2
      simp only [itemMatchL]
      rw [htw, hdw]
      simp only [itemSplit, itemAfterDash]
      rw [htw2, hdw2]
      simp only [itemTail]
      rw [← hnc, digitsValOf_natChars]
      simp

/-- String-level form of `itemMatchL_tag_digits`, matching how `put` builds
the filename for a non-negative new version number. -/
theorem item_match_mkFname (tag : String) (nvn : Int)
    (hne : tag.data ≠ []) (hal : ∀ c ∈ tag.data, c.isAlpha = true) (hnn : 0 ≤ nvn) :
    item_match (mkFname tag nvn) = some nvn.toNat := by
  have hneg : ¬nvn < 0 := by omega
  have hint : intChars nvn = natChars nvn.toNat := by simp [intChars, hneg]
  simp only [item_match, mkFname, hint]
  exact itemMatchL_tag_digits tag.data nvn.toNat hne hal

/-! ## `max(..., key=...)` lemmas -/

theorem pickMax_eq_or_mem {α : Type} : ∀ (ms : List (α × Nat)) (m : α × Nat),
    pickMax m ms = m ∨ pickMax m ms ∈ ms := by
  intro ms
  induction ms with
  | nil => intro m; left; rfl
  | cons x t ih =>
    intro m
    have hstep : pickMax m (x :: t) = pickMax (if m.2 < x.2 then x else m) t := rfl
    rcases ih (if m.2 < x.2 then x else m) with h | h
    · rw [hstep, h]
      by_cases hc : m.2 < x.2
      · simp [hc]
      · simp [hc]
    · right
      rw [hstep]
      exact List.mem_cons_of_mem _ h

theorem pickMax_last {α : Type} : ∀ (ms : List (α × Nat)) (m x : α × Nat),
    m.2 < x.2 → (∀ y ∈ ms, y.2 < x.2) → pickMax m (ms ++ [x]) = x := by
  intro ms
  induction ms with
  | nil =>
    intro m x hm _
    simp [pickMax, hm]
  | cons z t ih =>
    intro m x hm hall
    have hz : z.2 < x.2 := hall z (by simp)
    have hstep : pickMax m ((z :: t) ++ [x]) = pickMax (if m.2 < z.2 then z else m) (t ++ [x]) := rfl
    rw [hstep]
    apply ih _ x _ (fun y hy => hall y (by simp [hy]))
    by_cases hc : m.2 < z.2
    · simpa [hc] using hz
    · simpa [hc] using hm

/-! ## Store lemmas -/

theorem lookupField_addFile (st : Store) (id fname : String) (content : WireRecord) :
    lookupField (addFile st id fname content).dirs id
      = some (filesOf st id ++ [(fname, content)]) := by
  unfold addFile filesOf
  cases h : lookupField st.dirs id with
  | none => simp [h, lookupField_append_of_none _ _ _ h, lookupField]
  | some files => simp [h, lookupField_setField_same]

theorem matchesOf_append (f1 f2 : List (String × WireRecord)) :
    matchesOf (f1 ++ f2) = matchesOf f1 ++ matchesOf f2 := by
  simp [matchesOf, List.filterMap_append]

/-! ## all_ids lemmas -/

theorem allIdsAux_ok (st : Store) : ∀ (l r : List String),
    allIdsAux st l = .ok r → r = l.filter (fun d => d != "__temp") := by
  intro l
  induction l with
  | nil =>
    intro r h
    simp only [allIdsAux] at h
    cases h
    rfl
  | cons d t ih =>
    intro r h
    by_cases hd : d = "__temp"
    · subst hd
      simp only [allIdsAux, if_pos rfl] at h
      simpa using ih r h
    · simp only [allIdsAux, if_neg hd] at h
      cases hg : get st d with
      | error e => rw [hg] at h; cases h
      | ok v =>
        rw [hg] at h
        cases hrec : allIdsAux st t with
        | error e => rw [hrec] at h; cases h
        | ok l' =>
          rw [hrec] at h
          cases h
          have hfilter : (d :: t).filter (fun x => x != "__temp") =
              d :: t.filter (fun x => x != "__temp") := by
            simp [List.filter_cons, hd]
          rw [hfilter, ih l' hrec]

theorem allIdsAux_isOk (st : Store) : ∀ (l : List String),
    exceptIsOk (allIdsAux st l) = true ↔
      ∀ d ∈ l, d ≠ "__temp" → exceptIsOk (get st d) = true := by
  intro l
  induction l with
  | nil => simp [allIdsAux, exceptIsOk]
  | cons d t ih =>
    by_cases hd : d = "__temp"
    · subst hd
      have hred : allIdsAux st ("__temp" :: t) = allIdsAux st t := by
        simp [allIdsAux]
      rw [hred, ih]
      constructor
      · intro h x hx hne
        rcases List.mem_cons.mp hx with rfl | hx
        · exact absurd rfl hne
        · exact h x hx hne
      · intro h x hx hne
        exact h x (List.mem_cons_of_mem _ hx) hne
    · cases hg : get st d with
      | error e =>
        have hred : allIdsAux st (d :: t) = .error e := by
          simp only [allIdsAux, if_neg hd, hg]
        rw [hred]
        simp only [exceptIsOk]
        constructor
        · intro h
          exact absurd h (by simp)
        · intro h
          have hcontra := h d (List.mem_cons_self d t) hd
          rw [hg] at hcontra
          exact absurd hcontra (by simp [exceptIsOk])
      | ok v =>
        cases hrec : allIdsAux st t with
        | error e =>
          have hred : allIdsAux st (d :: t) = .error e := by
            simp only [allIdsAux, if_neg hd, hg, hrec]
          rw [hred]
          rw [hrec] at ih
          constructor
          · intro h
            exact absurd h (by simp [exceptIsOk])
          · intro h
            have hrest : ∀ x ∈ t, x ≠ "__temp" → exceptIsOk (get st x) = true :=
              fun x hx hne => h x (List.mem_cons_of_mem _ hx) hne
            exact absurd (ih.mpr hrest) (by simp [exceptIsOk])
        | ok l' =>
          have hred : allIdsAux st (d :: t) = .ok (d :: l') := by
            simp only [allIdsAux, if_neg hd, hg, hrec]
          rw [hred]
          rw [hrec] at ih
          constructor
          · intro _ x hx hne
            rcases List.mem_cons.mp hx with rfl | hx
            · rw [hg]; rfl
            · exact (ih.mp (by simp [exceptIsOk])) x hx hne
          · intro _
            rfl

/-! ## Error-shape lemmas for get and put -/

/-- Every failure of `get` is the wrapped `DataStoreException` that names the
id and carries the underlying cause (line 146). -/
theorem get_error_names_id (st : Store) (id : String) (e : DSErr)
    (h : get st id = .error e) : errNamesId e id = true := by
  unfold get at h
  repeat'
    first
      | split at h
      | simp only [] at h
  all_goals simp at h
  all_goals subst h
  all_goals simp [errNamesId]

/-- Every failure of `put` is either the `ConcurrentModificationException`
translated from `FileAlreadyExistsException` (lines 184-185) or an exception
`put` does not catch at all, escaping raw. -/
theorem put_error_shape (st : Store) (oscause : String) (fsErr : Option String)
    (tag id : String) (item : Record) (now : PyDateTime) (e : DSErr)
    (h : (put st oscause fsErr tag id item now).1 = .error e) :
    (isCME e || isRaw e) = true := by
  unfold put at h
  repeat'
    first
      | split at h
      | simp only [] at h
  all_goals simp at h
  all_goals subst h
  all_goals simp [isCME, isRaw]

/-- When the caller's record carries an integer version, the record `put`
hands back (the caller's dict, mutated in place by the with-block body) is
exactly `put_record_update item (v+1) now`, on the success path, the
concurrent-modification path alike. -/
theorem put_snd_record (st : Store) (oscause tag id : String) (item : Record)
    (now : PyDateTime) (v : Int)
    (hv : lookupField item "version" = some (.leaf (.jint v))) :
    (put st oscause none tag id item now).2.1 = put_record_update item (v + 1) now := by
  simp only [put, hv, pyIntOfVal]
  by_cases hd : destExists st id (mkFname tag (v + 1)) <;> simp [hd]

theorem put_record_update_version (item : Record) (nvn : Int) (now : PyDateTime) :
    lookupField (put_record_update item nvn now) "version" = some (.leaf (.jint nvn)) := by
  unfold put_record_update
  by_cases h : hasField (setField item "version" (.leaf (.jint nvn))) "creation_date" = true
  · rw [if_pos h, lookupField_setField_ne _ "updating_date" "version" _ (by decide)]
    exact lookupField_setField_same _ _ _
  · rw [if_neg h, lookupField_setField_ne _ "creation_date" "version" _ (by decide)]
    exact lookupField_setField_same _ _ _

theorem put_record_update_creation_absent (item : Record) (nvn : Int) (now : PyDateTime)
    (h : hasField item "creation_date" = false) :
    lookupField (put_record_update item nvn now) "creation_date" = some (.date now) ∧
    lookupField (put_record_update item nvn now) "updating_date"
      = lookupField item "updating_date" := by
  unfold put_record_update
  have h1 : hasField (setField item "version" (.leaf (.jint nvn))) "creation_date" = false := by
    rw [hasField_setField_ne item "version" "creation_date" _ (by decide)]
    exact h
  rw [if_neg (by simp [h1])]
  constructor
  · exact lookupField_setField_same _ _ _
  · rw [lookupField_setField_ne _ "creation_date" "updating_date" _ (by decide),
      lookupField_setField_ne _ "version" "updating_date" _ (by decide)]

theorem put_record_update_creation_present (item : Record) (nvn : Int) (now : PyDateTime)
    (h : hasField item "creation_date" = true) :
    lookupField (put_record_update item nvn now) "updating_date" = some (.date now) ∧
    lookupField (put_record_update item nvn now) "creation_date"
      = lookupField item "creation_date" := by
  unfold put_record_update
  have h1 : hasField (setField item "version" (.leaf (.jint nvn))) "creation_date" = true := by
    rw [hasField_setField_ne item "version" "creation_date" _ (by decide)]
    exact h
  rw [if_pos (by simp [h1])]
  constructor
  · exact lookupField_setField_same _ _ _
  · rw [lookupField_setField_ne _ "updating_date" "creation_date" _ (by decide),
      lookupField_setField_ne _ "version" "creation_date" _ (by decide)]



/-! ## Claim C1 -/

/-- Claim C1 (counterexample): a `put` that loses the race raises
`ConcurrentModificationException`, but the exception does not name the id:
`put` passes only `sys.exc_info()` to the constructor (line 185), so with the
underlying cause text `"file already exists"` (the very text the repository's
own test uses) the full exception message never mentions the id `myid`. -/
theorem C1_counterexample :
    (put ⟨[("myid", [("item-1.json", [])])]⟩ "file already exists" none "item" "myid"
        [("version", .leaf (.jint 0))] epoch).1 =
      .error (.concurrentModification (strExcInfo "file already exists") none) ∧
    strMentions "myid"
      (fullMessage (.concurrentModification (strExcInfo "file already exists") none))
      = false := by
  decide

/-- Claim C1 (amended): when the publish step reports that the destination
version file already exists, `put` raises `ConcurrentModificationException` —
a distinct, separately catchable subtype of `DataStoreException`, never a
plain `DataStoreException` — but the exception is built from the caught
exception info alone (`ConcurrentModificationException(sys.exc_info())`,
line 185): `put` adds nothing naming the id, so the failure mentions the id
only when the underlying OS error text happens to contain it. -/
theorem C1_amended (st : Store) (oscause tag id : String) (item : Record)
    (now : PyDateTime) (v : Int)
    (hv : lookupField item "version" = some (.leaf (.jint v)))
    (hdest : destExists st id (mkFname tag (v + 1)) = true) :
    (put st oscause none tag id item now).1 =
      .error (.concurrentModification (strExcInfo oscause) none) ∧
    isCME (.concurrentModification (strExcInfo oscause) none) = true ∧
    errNamesId (.concurrentModification (strExcInfo oscause) none) id = false := by
  refine ⟨?_, rfl, rfl⟩
  simp [put, hv, pyIntOfVal, hdest]

/-- Claim C1 (witness): the amended statement at a concrete store and record. -/
theorem C1_witness :
    (put ⟨[("rec1", [("item-1.json", [])])]⟩ "file exists" none "item" "rec1"
        [("version", .leaf (.jint 0))] epoch).1 =
      .error (.concurrentModification (strExcInfo "file exists") none) ∧
    isCME (.concurrentModification (strExcInfo "file exists") none) = true ∧
    errNamesId (.concurrentModification (strExcInfo "file exists") none) "rec1" = false :=
  C1_amended ⟨[("rec1", [("item-1.json", [])])]⟩ "file exists" "item" "rec1"
    [("version", .leaf (.jint 0))] epoch 0 (by decide) (by decide)

/-! ## Claim C2 -/

/-- Claim C2 (counterexample): `atomic_rename` raises
`FileAlreadyExistsException` even when NO file exists at the destination: an
unrelated I/O failure of the link step (here a permission error) is caught by
the blanket `except Exception` (lines 49-50) and wrapped into the same
condition, refuting the "only if a file already exists" direction. -/
theorem C2_counterexample :
    atomic_rename OsName.posix false (some "Permission denied")
      = (RenameResult.fileAlreadyExists "Permission denied", false) := by
  decide

/-- Claim C2 (amended): on posix (and identically on nt), `atomic_rename`
succeeds iff the underlying link/rename step fails in no way at all, and it
raises `FileAlreadyExistsException` iff that step fails for ANY reason —
destination already present or an unrelated I/O error alike; only
`NotImplementedError` (unsupported platform) escapes unwrapped. -/
theorem C2_amended (dest : Bool) (ioErr : Option String) :
    ((atomic_rename .posix dest ioErr).1 = .success ↔ (dest = false ∧ ioErr = none)) ∧
    ((∃ m, (atomic_rename .posix dest ioErr).1 = .fileAlreadyExists m) ↔
      (dest = true ∨ ioErr ≠ none)) ∧
    (atomic_rename .nt dest ioErr = atomic_rename .posix dest ioErr) ∧
    ((atomic_rename .other dest ioErr).1 = .notImplemented) := by
  cases dest <;> cases ioErr <;> simp [atomic_rename, link_step]

/-! ## Claim C3 -/

/-- Claim C3 (behavior at the failing input): the success path and the
publish-lost-the-race path of `open_new_file` leave the scratch area clean
(`atomic_rename`'s `finally` removes the temp source either way), but when the
body raises, `exc_info` is set, `atomic_rename` is skipped (line 95), and the
`mkstemp` temp file is left behind in the scratch area — contradicting the
documented invariant that the temp file is discarded on every exit path. -/
theorem C3_temp_leak :
    (open_new_file ⟨[], []⟩ "tmp0" "rec1/item-0.json" false none).1.temp = [] ∧
    (open_new_file ⟨[], ["rec1/item-0.json"]⟩ "tmp1" "rec1/item-0.json" false none).1
      = ⟨[], ["rec1/item-0.json"]⟩ ∧
    (open_new_file ⟨[], ["rec1/item-0.json"]⟩ "tmp1" "rec1/item-0.json" false none).2
      = .alreadyExists "File exists" ∧
    (open_new_file ⟨[], []⟩ "tmp2" "rec1/item-0.json" true none).1.temp = ["tmp2"] := by
  decide

/-! ## Claim C6 -/

/-- Claim C6 (counterexample): an underlying failure of `put` that is not
`FileAlreadyExistsException` (here a disk error at `mkstemp`/`open` time)
escapes raw: `put`'s only handler is `except FileAlreadyExistsException`
(line 184), so the error reaches the caller unwrapped — neither as a
`DataStoreException` nor naming the id. -/
theorem C6_counterexample :
    (put ⟨[]⟩ "x" (some "disk full") "item" "myid" [("version", .leaf (.jint 0))] epoch).1
      = .error (.rawError "disk full") ∧
    isRaw (.rawError "disk full") = true ∧
    errNamesId (.rawError "disk full") "myid" = false := by
  decide

/-- Claim C6 (amended): `get` wraps EVERY failure into a `DataStoreException`
whose message names the id and which carries the underlying cause; `put`
however translates only `FileAlreadyExistsException` (into
`ConcurrentModificationException`) and lets every other failure propagate as
the raw underlying exception. -/
theorem C6_amended :
    (∀ (st : Store) (id : String) (e : DSErr),
      get st id = .error e → errNamesId e id = true) ∧
    (∀ (st : Store) (oscause : String) (fsErr : Option String) (tag id : String)
      (item : Record) (now : PyDateTime) (e : DSErr),
      (put st oscause fsErr tag id item now).1 = .error e →
        (isCME e || isRaw e) = true) :=
  ⟨fun st id e h => get_error_names_id st id e h,
   fun st oscause fsErr tag id item now e h =>
     put_error_shape st oscause fsErr tag id item now e h⟩

/-! ## Claim C7 -/

/-- Claim C7 (counterexample): a record directory holding no file that matches
the version pattern is NOT silently skipped by `all_ids`: the unguarded
`self.get(basename)` probe (line 114) raises, so the iteration aborts with the
`DataStoreException` instead of yielding the remaining ids. -/
theorem C7_counterexample :
    all_ids ⟨[("emptyid", [("readme.txt", [("x", .leaf .jnull)])])]⟩
      = .error (.dataStore "for id emptyid" (some fmtEmptyMax)) ∧
    exceptIsOk (all_ids ⟨[("emptyid", [("readme.txt", [("x", .leaf .jnull)])])]⟩) = false := by
  decide

/-- Claim C7 (amended): `all_ids` never yields the scratch-area name `__temp`,
and when it succeeds it yields exactly the non-`__temp` record directories;
but it succeeds precisely when `get` succeeds on every one of them — a
directory with no valid version file makes `all_ids` raise the
`DataStoreException` from `get` rather than being silently skipped. -/
theorem C7_amended :
    (∀ (st : Store) (l : List String), all_ids st = .ok l →
      "__temp" ∉ l ∧ l = (st.dirs.map Prod.fst).filter (fun d => d != "__temp")) ∧
    (∀ st : Store, exceptIsOk (all_ids st) = true ↔
      ∀ p ∈ st.dirs, p.1 ≠ "__temp" → exceptIsOk (get st p.1) = true) := by
  constructor
  · intro st l h
    have h1 : l = (listdirs st).filter (fun d => d != "__temp") :=
      allIdsAux_ok st (listdirs st) l h
    have h2 : (listdirs st).filter (fun d => d != "__temp")
        = (st.dirs.map Prod.fst).filter (fun d => d != "__temp") := by
      simp [listdirs, List.filter_cons]
    refine ⟨?_, by rw [h1, h2]⟩
    rw [h1, h2]
    intro hmem
    have := (List.mem_filter.mp hmem).2
    simp at this
  · intro st
    have hbase := allIdsAux_isOk st (listdirs st)
    rw [show all_ids st = allIdsAux st (listdirs st) from rfl, hbase]
    constructor
    · intro h p hp hne
      refine h p.1 ?_ hne
      simp only [listdirs, List.mem_cons, List.mem_map]
      exact Or.inr ⟨p, hp, rfl⟩
    · intro h d hd hne
      simp only [listdirs, List.mem_cons, List.mem_map] at hd
      rcases hd with rfl | ⟨p, hp, rfl⟩
      · exact absurd rfl hne
      · exact h p hp hne

/-! ## Claim C8 -/

/-- Claim C8 (confirmed): for a `put` whose record carries an integer version
(so the with-block body runs), if the record has no `creation_date` field then
`put` sets `creation_date` to the clock value and leaves `updating_date`
untouched; if `creation_date` is present then `put` sets `updating_date` to
the clock value and leaves the existing `creation_date` value unchanged
(lines 177-180). -/
theorem C8_dates (st : Store) (oscause tag id : String) (item : Record)
    (now : PyDateTime) (v : Int)
    (hv : lookupField item "version" = some (.leaf (.jint v))) :
    (hasField item "creation_date" = false →
      lookupField (put st oscause none tag id item now).2.1 "creation_date"
        = some (.date now) ∧
      lookupField (put st oscause none tag id item now).2.1 "updating_date"
        = lookupField item "updating_date") ∧
    (hasField item "creation_date" = true →
      lookupField (put st oscause none tag id item now).2.1 "updating_date"
        = some (.date now) ∧
      lookupField (put st oscause none tag id item now).2.1 "creation_date"
        = lookupField item "creation_date") := by
  rw [put_snd_record st oscause tag id item now v hv]
  exact ⟨fun h => put_record_update_creation_absent item (v + 1) now h,
    fun h => put_record_update_creation_present item (v + 1) now h⟩

/-- Claim C8 (witness): a first write on a record without `creation_date`
sets `creation_date` to the clock value and leaves `updating_date` unset. -/
theorem C8_witness :
    lookupField (put ⟨[]⟩ "c" none "item" "rec2"
        [("version", .leaf (.jint 0))] epoch).2.1 "creation_date"
      = some (.date epoch) ∧
    lookupField (put ⟨[]⟩ "c" none "item" "rec2"
        [("version", .leaf (.jint 0))] epoch).2.1 "updating_date" = none :=
  ((C8_dates ⟨[]⟩ "c" "item" "rec2" [("version", .leaf (.jint 0))] epoch 0
      (by decide)).1 (by decide))

/-! ## Claim C9 -/

/-- Claim C9 (confirmed): pushing a representable timestamp through the JSON
encode hook (tagged `__datetime__` object carrying the `DATE_STRING`
serialization) and back through the decode hook (marker-key detection plus
`parse_date`) yields the same timestamp at second granularity — the
sub-second `micro` field, which `DATE_STRING` cannot express, is truncated
to zero. -/
theorem C9_roundtrip (d : PyDateTime) (h : WFDate d) :
    decodeVal (encodeVal (.date d)) = some (.date (truncSec d)) := by
  simp only [encodeVal, decodeVal, json_decode_obj, hasField, lookupField]
  rw [if_neg (show ¬("__datetime__" = "iso8601") by decide)]
  have hpd : parse_date (serialized_date d) = some (truncSec d) := by
    simp only [parse_date, serialized_date]
    exact parse_serialized_date d h
  simp [hpd]

/-- Claim C9 (witness): a concrete timestamp with sub-second precision and a
positive offset round-trips to itself truncated to whole seconds. -/
theorem C9_witness :
    WFDate ⟨2020, 6, 15, 12, 34, 56, 789, some 150⟩ ∧
    decodeVal (encodeVal (.date ⟨2020, 6, 15, 12, 34, 56, 789, some 150⟩))
      = some (.date ⟨2020, 6, 15, 12, 34, 56, 0, some 150⟩) :=
  ⟨by decide, C9_roundtrip ⟨2020, 6, 15, 12, 34, 56, 789, some 150⟩ (by decide)⟩

/-! ## Claim C10 -/

/-- Claim C10 (confirmed): for a `put` whose record carries an integer version
`v` and whose filesystem does not fail before the body runs, the caller's dict
is mutated in place: `version` becomes `v + 1` and `creation_date` (if it was
absent) or `updating_date` (if present) is set to the clock value — and these
mutations happen before the publish step, so they are visible even when the
publish loses the race and `put` raises `ConcurrentModificationException`. -/
theorem C10_mutation (st : Store) (oscause tag id : String) (item : Record)
    (now : PyDateTime) (v : Int)
    (hv : lookupField item "version" = some (.leaf (.jint v))) :
    lookupField (put st oscause none tag id item now).2.1 "version"
      = some (.leaf (.jint (v + 1))) ∧
    (hasField item "creation_date" = false →
      lookupField (put st oscause none tag id item now).2.1 "creation_date"
        = some (.date now)) ∧
    (hasField item "creation_date" = true →
      lookupField (put st oscause none tag id item now).2.1 "updating_date"
        = some (.date now)) ∧
    (destExists st id (mkFname tag (v + 1)) = true →
      (put st oscause none tag id item now).1 =
        .error (.concurrentModification (strExcInfo oscause) none)) := by
  rw [put_snd_record st oscause tag id item now v hv]
  refine ⟨put_record_update_version item (v + 1) now,
    fun h => (put_record_update_creation_absent item (v + 1) now h).1,
    fun h => (put_record_update_creation_present item (v + 1) now h).1,
    fun hdest => ?_⟩
  simp [put, hv, pyIntOfVal, hdest]

/-- Claim C10 (witness): a `put` that loses the race for `item-1.json` still
leaves the caller's record with `version = 1` and `creation_date` set. -/
theorem C10_witness :
    lookupField (put ⟨[("rec3", [("item-1.json", [])])]⟩ "file exists" none "item" "rec3"
        [("version", .leaf (.jint 0))] epoch).2.1 "version"
      = some (.leaf (.jint 1)) ∧
    lookupField (put ⟨[("rec3", [("item-1.json", [])])]⟩ "file exists" none "item" "rec3"
        [("version", .leaf (.jint 0))] epoch).2.1 "creation_date"
      = some (.date epoch) ∧
    (put ⟨[("rec3", [("item-1.json", [])])]⟩ "file exists" none "item" "rec3"
        [("version", .leaf (.jint 0))] epoch).1 =
      .error (.concurrentModification (strExcInfo "file exists") none) := by
  have h := C10_mutation ⟨[("rec3", [("item-1.json", [])])]⟩ "file exists" "item" "rec3"
    [("version", .leaf (.jint 0))] epoch 0 (by decide)
  exact ⟨h.1, h.2.1 (by decide), h.2.2.2 (by decide)⟩

/-! ## Claim C4 -/

/-- Claim C4 (behavior at the failing input): the regex on line 128 spells the
extension as `.json` with an UNESCAPED dot, so the stray file `item-99xjson`
— which does not match the documented pattern `<letters>-<digits>.json`
(see `spec_version_pattern`) — is matched with version 99 and, being the
numeric maximum, is the file `get` returns, instead of `item-1.json`. -/
theorem C4_unescaped_dot :
    spec_version_pattern "item-99xjson" = none ∧
    item_match "item-99xjson" = some 99 ∧
    item_match "item-1.json" = some 1 ∧
    get ⟨[("myid", [("item-1.json", [("name", .leaf (.jstr "one"))]),
                    ("item-99xjson", [("name", .leaf (.jstr "weird"))])])]⟩ "myid"
      = .ok [("name", .leaf (.jstr "weird")), ("version", .leaf (.jint 99))] := by
  decide

/-! ## Claim C5 -/

/-- Claim C5 (counterexample): the put/get version round trip fails for a
successful but stale write.  With `item-100.json` already on disk, a `put` of
a record claiming `version = 3` succeeds (nothing occupies `item-4.json`) and
returns 4 — but the `get` that follows, with no intervening writes, returns
the record of `item-100.json` with `version = 100`, not 4. -/
theorem C5_counterexample :
    (put ⟨[("myid", [("item-100.json", [("name", .leaf (.jstr "a"))])])]⟩ "c" none
        "item" "myid" [("version", .leaf (.jint 3))] epoch).1 = .ok 4 ∧
    get (put ⟨[("myid", [("item-100.json", [("name", .leaf (.jstr "a"))])])]⟩ "c" none
        "item" "myid" [("version", .leaf (.jint 3))] epoch).2.2 "myid"
      = .ok [("name", .leaf (.jstr "a")), ("version", .leaf (.jint 100))] := by
  decide

/-- Claim C5 (amended): for a record with integer version `v`, `put` returns
`v + 1` and a `get` performed afterwards (with no intervening writes) returns
a record whose `version` equals that returned value, PROVIDED the write is a
valid fresh-state write: the type tag is nonempty and purely alphabetic (else
the written filename fails the version regex), `v + 1 ≥ 0` (else the filename
embeds a minus sign), `v + 1` exceeds every version currently readable for the
id (else the stale write lands below the current maximum, or collides), and
the written record decodes back successfully. -/
theorem C5_amended (st : Store) (oscause tag id : String) (item : Record)
    (now : PyDateTime) (v : Int) (rec : Record)
    (hv : lookupField item "version" = some (.leaf (.jint v)))
    (hnn : 0 ≤ v + 1)
    (htag : tag.data ≠ [])
    (hal : ∀ c ∈ tag.data, c.isAlpha = true)
    (hmax : ∀ p ∈ matchesOf (filesOf st id), (p.2 : Int) < v + 1)
    (hdec : decodeTop (encodeRecord (put_record_update item (v + 1) now)) = some rec) :
    (put st oscause none tag id item now).1 = .ok (v + 1) ∧
    get (put st oscause none tag id item now).2.2 id
      = .ok (setField rec "version" (.leaf (.jint (v + 1)))) := by
  have hfn : item_match (mkFname tag (v + 1)) = some (v + 1).toNat :=
    item_match_mkFname tag (v + 1) htag hal hnn
  have htonat : (((v + 1).toNat : Nat) : Int) = v + 1 := Int.toNat_of_nonneg hnn
  have hdest : destExists st id (mkFname tag (v + 1)) = false := by
    cases hl : lookupField st.dirs id with
    | none => simp [destExists, hl]
    | some files =>
      have hfiles : filesOf st id = files := by simp [filesOf, hl]
      simp only [destExists, hl]
      rw [List.any_eq_false]
      intro f hf hbeq
      have hfeq : f.1 = mkFname tag (v + 1) := by simpa using hbeq
      have hmem : (f, (v + 1).toNat) ∈ matchesOf (filesOf st id) := by
        rw [hfiles]
        exact List.mem_filterMap.mpr ⟨f, hf, by rw [hfeq, hfn]; rfl⟩
      have hlt := hmax _ hmem
      simp only at hlt
      rw [htonat] at hlt
      exact lt_irrefl _ hlt
  have hput : put st oscause none tag id item now =
      (.ok (v + 1), put_record_update item (v + 1) now,
        addFile st id (mkFname tag (v + 1))
          (encodeRecord (put_record_update item (v + 1) now))) := by
    simp [put, hv, pyIntOfVal, hdest]
  refine ⟨by rw [hput], ?_⟩
  rw [hput]
  set F := mkFname tag (v + 1) with hF
  set C := encodeRecord (put_record_update item (v + 1) now) with hC
  set N := (v + 1).toNat with hN
  have hlook := lookupField_addFile st id F C
  have hm2 : matchesOf (filesOf st id ++ [(F, C)])
      = matchesOf (filesOf st id) ++ [((F, C), N)] := by
    rw [matchesOf_append]
    simp [matchesOf, hfn]
  have hlt2 : ∀ p ∈ matchesOf (filesOf st id), p.2 < N := by
    intro p hp
    have h1 := hmax p hp
    rw [hN]
    omega
  have hNcast : ((N : Nat) : Int) = v + 1 := by rw [hN]; exact htonat
  rcases hm0 : matchesOf (filesOf st id) with _ | ⟨m0, ms0⟩
  · simp only [get, hlook, hm2, hm0, List.nil_append, pickMax, List.foldl_nil, hdec]
    simp [hNcast]
  · have hmlt : m0.2 < N := hlt2 m0 (by rw [hm0]; simp)
    have hl2 : ∀ y ∈ ms0, y.2 < N := fun y hy => hlt2 y (by rw [hm0]; simp [hy])
    have hlast : pickMax m0 (ms0 ++ [((F, C), N)]) = ((F, C), N) :=
      pickMax_last ms0 m0 ((F, C), N) hmlt hl2
    simp only [get, hlook, hm2, hm0, List.cons_append, hlast, hdec]
    simp [hNcast]

/-- Claim C5 (witness): a fresh first write (`version = -1`, so version 0 is
written) on an empty store round-trips: `put` returns 0 and the following
`get` yields a record with `version = 0`. -/
theorem C5_witness :
    (put ⟨[]⟩ "c" none "item" "rec9" [("version", .leaf (.jint (-1)))] epoch).1
      = .ok 0 ∧
    get (put ⟨[]⟩ "c" none "item" "rec9" [("version", .leaf (.jint (-1)))] epoch).2.2 "rec9"
      = .ok [("version", .leaf (.jint 0)), ("creation_date", .date epoch)] := by
  have h := C5_amended ⟨[]⟩ "c" "item" "rec9" [("version", .leaf (.jint (-1)))] epoch (-1)
    [("version", .leaf (.jint 0)), ("creation_date", .date epoch)]
    (by decide) (by decide) (by decide) (by decide) (by decide) (by decide)
  exact ⟨h.1.trans (by decide), h.2.trans (by decide)⟩

end Jsonlog
